import Mathlib

/-!
Verification of the ExamBasedNLP analysis core against its specification.

The Python sources are shallowly embedded:
* floating-point similarity scores are modelled as rationals (`ℚ`);
* the external sentence-transformers embedding model is a black box
  (spec §4.1), so the cosine-similarity matrix it produces is passed in
  as an explicit function argument `sim : ℕ → ℕ → ℚ` indexed by position;
* the external `textstat` library functions (`flesch_reading_ease`,
  `lexicon_count`) are likewise passed in as oracle arguments;
* Python `None` / empty defaults are modelled with `Option` / `[]`.
-/

/- ---------------------------------------------------------------
   src/analyzer.py — calculate_importance
   --------------------------------------------------------------- -/

/-- Python `round(x, 2)`: round to 2 decimal digits (modelled with
mathematical half-up rounding on rationals). -/
def round2 (q : ℚ) : ℚ := (round (q * 100) : ℤ) / 100

/-- The expression `matches[matches > thr]` from src/analyzer.py line 37:
the entries of a similarity row strictly above the threshold. -/
def significant (thr : ℚ) (row : List ℚ) : List ℚ :=
  row.filter (fun s => thr < s)

/-- The expression `float(significant_matches.sum())` from src/analyzer.py
line 41: the topic score before rounding, for a given threshold. The
source fixes the threshold to `0.45`. -/
def topicScore (thr : ℚ) (row : List ℚ) : ℚ :=
  (significant thr row).sum

/-- Number of questions that pass the relevance threshold for a row. -/
def matchCount (thr : ℚ) (row : List ℚ) : ℕ :=
  (significant thr row).length

/-- Row `i` of the topics × questions cosine-similarity matrix
(`cosine_scores[i]` in src/analyzer.py), with `m` questions. -/
def simRow (sim : ℕ → ℕ → ℚ) (i m : ℕ) : List ℚ :=
  (List.range m).map (sim i)

/-- src/analyzer.py `calculate_importance(topics, pyqs)`.
`if not pyqs: return {t: 0 for t in topics}`; otherwise each topic `i` is
mapped to `round(total_score, 2)` where `total_score` sums the entries of
row `i` strictly above `0.45`.  The returned Python dict (insertion
ordered) is modelled as an association list. An absent (`None`) question
list behaves exactly like the empty list under Python truthiness, so both
are modelled by `[]`. -/
def calculate_importance (topics pyqs : List String) (sim : ℕ → ℕ → ℚ) :
    List (String × ℚ) :=
  if pyqs.isEmpty then topics.map (fun t => (t, 0))
  else
    topics.enum.map
      (fun p => (p.2, round2 (topicScore (45/100) (simRow sim p.1 pyqs.length))))

/-- src/app.py "SAFE DATA EXTRACTION": a bare numeric importance value is
wrapped as `{"score": raw, "matches": []}` before use, so the per-topic
record the pipeline consumes is the score together with an empty
matched-question list. -/
def importanceRecord (raw : ℚ) : ℚ × List String := (raw, [])

/-- Modelled from the spec (§4.2, "store the full unrounded list of matched
question texts"): the questions whose similarity to the topic strictly
exceeds the threshold.  No function under src/ computes this list; the
definition exists only to compare the spec's words with what the code
returns. -/
def matchedQuestions (thr : ℚ) (pyqs : List String) (row : List ℚ) : List String :=
  ((pyqs.zip row).filter (fun p => thr < p.2)).map (fun p => p.1)

/- ---------------------------------------------------------------
   src/metrics.py — estimate_effort
   --------------------------------------------------------------- -/

/-- Non-overlapping left-to-right substring count, as Python `str.count`.
The fuel argument bounds the number of scanning steps. -/
def countOccsAux (needle : List Char) : ℕ → List Char → ℕ
  | 0, _ => 0
  | _, [] => 0
  | fuel + 1, c :: rest =>
      if needle.isPrefixOf (c :: rest) then
        1 + countOccsAux needle fuel ((c :: rest).drop needle.length)
      else
        countOccsAux needle fuel rest

/-- Python `hay.count(needle)` on character lists. -/
def countOccs (needle hay : List Char) : ℕ :=
  countOccsAux needle hay.length hay

/-- Python `text.lower()` (per-character lowering). -/
def lowerStr (s : String) : String := String.mk (s.data.map Char.toLower)

/-- The `math_signals` vocabulary of src/metrics.py. -/
def mathSignals : List String :=
  ["formula", "equation", "calculate", "theorem", "proof", "algorithm",
   "sigma", "integral", "derivative", "matrix", "logarithm",
   "step 1", "step 2", "complexity", "O(", "∑"]

/-- The counter `math_hits` of src/metrics.py: total signal occurrences in
the lower-cased text. -/
def mathHits (s : String) : ℕ :=
  (mathSignals.map (fun sig => countOccs sig.data (lowerStr s).data)).sum

/-- The test `is_math_heavy = math_hits > (len(text) / 1000 * 3)` of
src/metrics.py line 25. -/
def isMathHeavyStr (s : String) : Bool :=
  decide ((s.length : ℚ) / 1000 * 3 < (mathHits s : ℚ))

/-- The base reading speed of src/metrics.py lines 27-37:
`wpm = 130; if complexity < 50: wpm = 100; if complexity < 30: wpm = 70`. -/
def wpmFor (complexity : ℚ) : ℚ :=
  let wpm : ℚ := 130
  let wpm := if complexity < 50 then 100 else wpm
  let wpm := if complexity < 30 then 70 else wpm
  wpm

/-- Minutes computation of src/metrics.py lines 39-50: divide the word
count by the reading speed, apply the ×1.6 math penalty, round to the
nearest multiple of 5 and floor at 5. -/
def minutesOf (wordCount : ℕ) (wpm : ℚ) (heavy : Bool) : ℤ :=
  let minutes : ℚ := (wordCount : ℚ) / wpm
  let minutes := if heavy then minutes * (8/5) else minutes
  let rounded : ℤ := 5 * round (minutes / 5)
  if rounded < 5 then 5 else rounded

/-- Difficulty label of src/metrics.py lines 53-56:
`label = "Easy"; if complexity < 60: "Moderate"; if complexity < 40 or is_math_heavy: "Hard"`. -/
def difficultyLabel (complexity : ℚ) (heavy : Bool) : String :=
  let label := "Easy"
  let label := if complexity < 60 then "Moderate" else label
  let label := if complexity < 40 ∨ heavy = true then "Hard" else label
  label

/-- src/metrics.py `estimate_effort(text)`.  The `textstat` oracle
functions `flesch_reading_ease` (`fl`) and `lexicon_count` (`lex`) are
external collaborators and are passed in.  `if not text or len(text) < 100`
returns the fixed default `(5, "Unknown", False)`; Python `None` is
`Option.none`, and the empty string falls under `len < 100`. -/
def estimate_effort (fl : String → ℚ) (lex : String → ℕ)
    (text : Option String) : ℤ × String × Bool :=
  match text with
  | none => (5, "Unknown", false)
  | some s =>
      if s.length < 100 then (5, "Unknown", false)
      else
        let heavy := isMathHeavyStr s
        let complexity := fl s
        let wpm := wpmFor complexity
        (minutesOf (lex s) wpm heavy, difficultyLabel complexity heavy, heavy)

/- ---------------------------------------------------------------
   src/deep_relations.py — analyze_deep_relations
   --------------------------------------------------------------- -/

/-- One entry of the `relations` list of src/deep_relations.py:
`{"topic_a": ..., "topic_b": ..., "score": ...}`. -/
structure Relation where
  topic_a : String
  topic_b : String
  score : ℚ
deriving DecidableEq, Repr

/-- The fetching phase of src/deep_relations.py lines 14-24: keep exactly
the topics whose fetched content is truthy and longer than 500 characters.
`fetch` models the external `fetch_topic_content` (Python `None` is
`Option.none`; the empty string is falsy and has length 0, so the single
`500 < length` test is equivalent to the source's two tests). -/
def validTopics (topics : List String) (fetch : String → Option String) :
    List String :=
  topics.filter (fun t =>
    match fetch t with
    | some c => decide (500 < c.length)
    | none => false)

/-- All index pairs `(i, j)` with `i < j < n`, in the order the two nested
loops of src/deep_relations.py lines 45-46 produce them. -/
def allPairs (n : ℕ) : List (ℕ × ℕ) :=
  (List.range n).flatMap (fun i =>
    (List.range n).filterMap (fun j => if i < j then some (i, j) else none))

/-- The unsorted `relations` list of src/deep_relations.py lines 45-61:
for every `i < j`, if `cosine_scores[i][j] > 0.30`, one relation with the
two topic labels and the raw similarity as score. -/
def relationsRaw (valid : List String) (sim : ℕ → ℕ → ℚ) : List Relation :=
  (allPairs valid.length).filterMap (fun p =>
    if (3/10 : ℚ) < sim p.1 p.2 then
      some ⟨valid.getD p.1 "", valid.getD p.2 "", sim p.1 p.2⟩
    else none)

/-- The comparison used to model
`relations.sort(key=lambda x: x['score'], reverse=True)`: descending by
score. -/
def relScoreGe (r1 r2 : Relation) : Bool := decide (r2.score ≤ r1.score)

/-- src/deep_relations.py `analyze_deep_relations(topics)`.  The external
collaborators are parameters: `fetch` is the Google-API content fetcher and
`sim` the cosine-similarity matrix over the valid topics' contents (§4.1).
If no topic has sufficient content the function returns `[]` (line 27);
otherwise the thresholded pair list, sorted by descending score. -/
def analyze_deep_relations (topics : List String)
    (fetch : String → Option String) (sim : ℕ → ℕ → ℚ) : List Relation :=
  let valid := validTopics topics fetch
  if valid.isEmpty then []
  else (relationsRaw valid sim).mergeSort relScoreGe

/- ---------------------------------------------------------------
   src/visualizer.py — create_knowledge_graph (graph + communities)
   --------------------------------------------------------------- -/

/-- The NetworkX graph of src/visualizer.py lines 17-20, as a node list
plus an edge list. -/
structure Graph where
  nodes : List String
  edges : List Relation
deriving Repr

/-- src/visualizer.py line 19: only relations with `score > 0.40` become
edges of the graph used for clustering. -/
def strongEdges (relations : List Relation) : List Relation :=
  relations.filter (fun r => decide ((2/5 : ℚ) < r.score))

/-- src/visualizer.py lines 17-20: `G.add_edge(a, b, weight=score)` for
every strong relation.  The node set is exactly the set of endpoints of
the added edges (NetworkX creates nodes on edge insertion; topics without
a qualifying edge never become nodes). -/
def buildGraph (relations : List Relation) : Graph :=
  let strong := strongEdges relations
  ⟨(strong.flatMap (fun r => [r.topic_a, r.topic_b])).dedup, strong⟩

/-- Total edge weight `m` of the graph (each edge counted once). -/
def totalW (edges : List Relation) : ℚ := (edges.map (fun r => r.score)).sum

/-- Weight of the edges with both endpoints inside community `c`. -/
def intraW (edges : List Relation) (c : List String) : ℚ :=
  ((edges.filter (fun r =>
      decide (r.topic_a ∈ c) && decide (r.topic_b ∈ c))).map
    (fun r => r.score)).sum

/-- Weighted degree of a vertex: total weight of its incident edges. -/
def degW (edges : List Relation) (v : String) : ℚ :=
  ((edges.filter (fun r =>
      decide (r.topic_a = v) || decide (r.topic_b = v))).map
    (fun r => r.score)).sum

/-- Sum of the weighted degrees over a community. -/
def degSum (edges : List Relation) (c : List String) : ℚ :=
  (c.map (degW edges)).sum

/-- Weighted modularity of a partition:
`Q = Σ_c (intra(c)/m − (deg(c)/(2m))²)`. -/
def modularityQ (edges : List Relation) (parts : List (List String)) : ℚ :=
  let m := totalW edges
  (parts.map (fun c => intraW edges c / m - (degSum edges c / (2 * m)) ^ 2)).sum

/-- Ordered pairs of two distinct members of the current community list
(candidate merges). -/
def mergeCandidates (parts : List (List String)) :
    List (List String × List String) :=
  parts.flatMap (fun a => (parts.erase a).map (fun b => (a, b)))

/-- Modularity increase obtained by merging communities `a` and `b`. -/
def deltaQ (edges : List Relation) (parts : List (List String))
    (a b : List String) : ℚ :=
  modularityQ edges ((a ++ b) :: (parts.erase a).erase b) -
    modularityQ edges parts

/-- One greedy step: merge the candidate pair with the best modularity
increase, provided the increase is strictly positive; otherwise stop. -/
def stepMerge (edges : List Relation) (parts : List (List String)) :
    Option (List (List String)) :=
  match (mergeCandidates parts).argmax (fun p => deltaQ edges parts p.1 p.2) with
  | some (a, b) =>
      if 0 < deltaQ edges parts a b then
        some ((a ++ b) :: (parts.erase a).erase b)
      else none
  | none => none

/-- Fuel-bounded greedy merging loop (each step reduces the number of
communities by one, so `parts.length` fuel suffices). -/
def greedyMerge (edges : List Relation) : ℕ → List (List String) →
    List (List String)
  | 0, parts => parts
  | fuel + 1, parts =>
      match stepMerge edges parts with
      | some parts2 => greedyMerge edges fuel parts2
      | none => parts

/-- Modelled from the spec (§4.4): the Cluster Detector is realized in
src/visualizer.py line 26 by the third-party library call
`nx.community.greedy_modularity_communities(G)`, whose code is not part of
this repository.  Per the spec it starts from singleton communities and
repeatedly performs the modularity-maximizing merge while one improves
modularity.  The `try/except` of src/visualizer.py lines 25-29 maps a
failing call (in particular the empty graph) to `communities = []`. -/
def clusterCommunities (g : Graph) : List (List String) :=
  if g.nodes.isEmpty then []
  else greedyMerge g.edges g.nodes.length (g.nodes.map (fun v => [v]))

/-- Two relations name the same unordered topic pair. -/
def samePair (r1 r2 : Relation) : Prop :=
  (r1.topic_a = r2.topic_a ∧ r1.topic_b = r2.topic_b) ∨
  (r1.topic_a = r2.topic_b ∧ r1.topic_b = r2.topic_a)

/- ---------------------------------------------------------------
   Helper lemmas
   --------------------------------------------------------------- -/

theorem topicScore_nonneg (thr : ℚ) (row : List ℚ) (hthr : 0 ≤ thr) :
    0 ≤ topicScore thr row := by
  apply List.sum_nonneg
  intro x hx
  have hlt : thr < x := by
    have := List.mem_filter.mp hx
    exact of_decide_eq_true this.2
  linarith

theorem round2_nonneg (q : ℚ) (hq : 0 ≤ q) : 0 ≤ round2 q := by
  unfold round2
  apply div_nonneg _ (by norm_num)
  have h : (0 : ℤ) ≤ round (q * 100) := by
    rw [round_eq]
    rw [Int.le_floor]
    push_cast
    linarith
  exact_mod_cast h

theorem topicScore_range_eq (thr : ℚ) (m : ℕ) (f : ℕ → ℚ) :
    topicScore thr ((List.range m).map f) =
      ∑ j ∈ Finset.range m, if thr < f j then f j else 0 := by
  induction m with
  | zero => simp [topicScore, significant]
  | succ n ih =>
      rw [List.range_succ, List.map_append, Finset.sum_range_succ, ← ih]
      unfold topicScore significant
      rw [List.filter_append, List.sum_append]
      congr 1
      by_cases h : thr < f n
      · simp [h]
      · simp [h]

theorem mem_allPairs {n i j : ℕ} : (i, j) ∈ allPairs n ↔ i < j ∧ j < n := by
  constructor
  · intro h
    obtain ⟨a, _, hb⟩ := List.mem_flatMap.mp h
    obtain ⟨b, hb2, heq⟩ := List.mem_filterMap.mp hb
    by_cases hab : a < b
    · rw [if_pos hab] at heq
      obtain ⟨rfl, rfl⟩ := Prod.mk.injEq .. ▸ Option.some.inj heq
      exact ⟨hab, List.mem_range.mp hb2⟩
    · rw [if_neg hab] at heq
      cases heq
  · rintro ⟨hij, hjn⟩
    refine List.mem_flatMap.mpr ⟨i, List.mem_range.mpr (lt_trans hij hjn), ?_⟩
    exact List.mem_filterMap.mpr ⟨j, List.mem_range.mpr hjn, by rw [if_pos hij]⟩

theorem nodup_allPairs (n : ℕ) : (allPairs n).Nodup := by
  rw [allPairs, List.nodup_flatMap]
  constructor
  · intro i _
    refine List.Nodup.filterMap ?_ (List.nodup_range n)
    intro a b c hca hcb
    by_cases ha : i < a
    · by_cases hb : i < b
      · rw [if_pos ha] at hca
        rw [if_pos hb] at hcb
        cases hca
        cases hcb
        rfl
      · rw [if_neg hb] at hcb
        cases hcb
    · rw [if_neg ha] at hca
      cases hca
  · have hnd : List.Pairwise (fun a b : ℕ => a ≠ b) (List.range n) :=
      List.nodup_range n
    refine hnd.imp ?_
    intro a b hab
    intro x hxa hxb
    obtain ⟨j1, _, he1⟩ := List.mem_filterMap.mp hxa
    obtain ⟨j2, _, he2⟩ := List.mem_filterMap.mp hxb
    apply hab
    by_cases h1 : a < j1
    · by_cases h2 : b < j2
      · rw [if_pos h1] at he1
        rw [if_pos h2] at he2
        cases he1
        cases he2
        rfl
      · rw [if_neg h2] at he2
        cases he2
    · rw [if_neg h1] at he1
      cases he1

theorem relationsRaw_mem {valid : List String} {sim : ℕ → ℕ → ℚ}
    {r : Relation} (hr : r ∈ relationsRaw valid sim) :
    ∃ i j, i < j ∧ j < valid.length ∧ r.topic_a = valid.getD i "" ∧
      r.topic_b = valid.getD j "" ∧ r.score = sim i j := by
  obtain ⟨p, hp, heq⟩ := List.mem_filterMap.mp hr
  by_cases hc : (3/10 : ℚ) < sim p.1 p.2
  · rw [if_pos hc] at heq
    obtain ⟨hij, hjn⟩ := mem_allPairs.mp (by simpa using hp)
    cases heq
    exact ⟨p.1, p.2, hij, hjn, rfl, rfl, rfl⟩
  · rw [if_neg hc] at heq
    cases heq

theorem getD_ne_of_nodup {l : List String} (hnd : l.Nodup) {i j : ℕ}
    (hi : i < l.length) (hj : j < l.length) (hij : i ≠ j) :
    l.getD i "" ≠ l.getD j "" := by
  rw [List.getD_eq_getElem l _ hi, List.getD_eq_getElem l _ hj]
  intro h
  apply hij
  have := (List.Nodup.get_inj_iff hnd (i := ⟨i, hi⟩) (j := ⟨j, hj⟩)).mp
  simp only [List.get_eq_getElem] at this
  exact congrArg Fin.val (this h)

theorem relationsRaw_no_self {valid : List String} {sim : ℕ → ℕ → ℚ}
    (hnd : valid.Nodup) {r : Relation} (hr : r ∈ relationsRaw valid sim) :
    r.topic_a ≠ r.topic_b := by
  obtain ⟨i, j, hij, hjn, ha, hb, -⟩ := relationsRaw_mem hr
  rw [ha, hb]
  exact getD_ne_of_nodup hnd (lt_trans hij hjn) hjn (Nat.ne_of_lt hij)

theorem relationsRaw_pairwise {valid : List String} {sim : ℕ → ℕ → ℚ}
    (hnd : valid.Nodup) :
    List.Pairwise (fun r1 r2 => ¬ samePair r1 r2) (relationsRaw valid sim) := by
  unfold relationsRaw
  rw [List.pairwise_filterMap]
  have base : List.Pairwise (fun p q : ℕ × ℕ => p ≠ q) (allPairs valid.length) :=
    nodup_allPairs valid.length
  have base2 := List.Pairwise.and_mem.mp base
  refine base2.imp ?_
  rintro p q ⟨hp, hq, hpq⟩ r1 h1 r2 h2
  by_cases hc1 : (3/10 : ℚ) < sim p.1 p.2
  · rw [if_pos hc1] at h1
    by_cases hc2 : (3/10 : ℚ) < sim q.1 q.2
    · rw [if_pos hc2] at h2
      cases h1
      cases h2
      obtain ⟨hij, hjn⟩ :=
        mem_allPairs.mp (show (p.1, p.2) ∈ allPairs valid.length by simpa using hp)
      obtain ⟨hij2, hjn2⟩ :=
        mem_allPairs.mp (show (q.1, q.2) ∈ allPairs valid.length by simpa using hq)
      have hin : p.1 < valid.length := lt_trans hij hjn
      have hin2 : q.1 < valid.length := lt_trans hij2 hjn2
      rintro (⟨e1, e2⟩ | ⟨e1, e2⟩)
      · simp only at e1 e2
        apply hpq
        have h11 : p.1 = q.1 := by
          by_contra hne
          exact getD_ne_of_nodup hnd hin hin2 hne e1
        have h22 : p.2 = q.2 := by
          by_contra hne
          exact getD_ne_of_nodup hnd hjn hjn2 hne e2
        exact Prod.ext h11 h22
      · simp only at e1 e2
        have h12 : p.1 = q.2 := by
          by_contra hne
          exact getD_ne_of_nodup hnd hin hjn2 hne e1
        have h21 : p.2 = q.1 := by
          by_contra hne
          exact getD_ne_of_nodup hnd hjn hin2 hne e2
        have : p.1 < p.1 := by
          calc p.1 < p.2 := hij
            _ = q.1 := h21
            _ < q.2 := hij2
            _ = p.1 := h12.symm
        exact absurd this (lt_irrefl _)
    · rw [if_neg hc2] at h2
      cases h2
  · rw [if_neg hc1] at h1
    cases h1

theorem samePair_symm {r1 r2 : Relation} (h : samePair r1 r2) :
    samePair r2 r1 := by
  rcases h with ⟨h1, h2⟩ | ⟨h1, h2⟩
  · exact Or.inl ⟨h1.symm, h2.symm⟩
  · exact Or.inr ⟨h2.symm, h1.symm⟩

theorem flatten_map_singleton (l : List String) :
    (l.map (fun v => [v])).flatten = l := by
  induction l with
  | nil => rfl
  | cons a rest ih => simp [ih]

theorem mergeCandidates_mem {parts : List (List String)}
    {a b : List String} (h : (a, b) ∈ mergeCandidates parts) :
    a ∈ parts ∧ b ∈ parts.erase a := by
  obtain ⟨x, hx, hmap⟩ := List.mem_flatMap.mp h
  obtain ⟨y, hy, heq⟩ := List.mem_map.mp hmap
  obtain ⟨rfl, rfl⟩ := Prod.mk.injEq .. ▸ heq
  exact ⟨hx, hy⟩

theorem perm_cons_erase_block {a : List String} {l : List (List String)}
    (h : a ∈ l) : l.Perm (a :: l.erase a) := by
  induction l with
  | nil => cases h
  | cons b t ih =>
      by_cases hba : b = a
      · subst hba
        rw [List.erase_cons_head]
      · rcases List.mem_cons.mp h with rfl | hmem
        · exact absurd rfl hba
        · rw [List.erase_cons_tail (by simpa using hba)]
          exact ((ih hmem).cons b).trans (List.Perm.swap a b _)

theorem stepMerge_flatten_perm {edges : List Relation}
    {parts parts2 : List (List String)}
    (h : stepMerge edges parts = some parts2) :
    parts2.flatten.Perm parts.flatten := by
  unfold stepMerge at h
  cases harg : (mergeCandidates parts).argmax
      (fun p => deltaQ edges parts p.1 p.2) with
  | none => rw [harg] at h; cases h
  | some ab =>
      rw [harg] at h
      obtain ⟨a, b⟩ := ab
      have h2 : (if 0 < deltaQ edges parts a b then
          some ((a ++ b) :: (parts.erase a).erase b) else none) = some parts2 := h
      clear h
      by_cases hdq : 0 < deltaQ edges parts a b
      · rw [if_pos hdq] at h2
        cases h2
        obtain ⟨ha, hb⟩ := mergeCandidates_mem (List.argmax_mem harg)
        have p1 : parts.Perm (a :: parts.erase a) := perm_cons_erase_block ha
        have p2 : (parts.erase a).Perm (b :: (parts.erase a).erase b) :=
          perm_cons_erase_block hb
        have j1 : parts.flatten.Perm (a :: parts.erase a).flatten :=
          p1.flatten
        have j2 : (parts.erase a).flatten.Perm
            (b :: (parts.erase a).erase b).flatten := p2.flatten
        simp only [List.flatten_cons] at j1 j2
        refine List.Perm.symm (j1.trans ?_)
        have hx : (a ++ (parts.erase a).flatten).Perm
            (a ++ (b ++ ((parts.erase a).erase b).flatten)) :=
          j2.append_left a
        simp only [List.flatten_cons, ← List.append_assoc] at hx ⊢
        exact hx
      · rw [if_neg hdq] at h2
        cases h2

theorem greedyMerge_flatten_perm (edges : List Relation) (fuel : ℕ)
    (parts : List (List String)) :
    (greedyMerge edges fuel parts).flatten.Perm parts.flatten := by
  induction fuel generalizing parts with
  | zero => exact List.Perm.refl _
  | succ n ih =>
      unfold greedyMerge
      cases h : stepMerge edges parts with
      | none => exact List.Perm.refl _
      | some parts2 => exact (ih parts2).trans (stepMerge_flatten_perm h)

/- ---------------------------------------------------------------
   Claim theorems
   --------------------------------------------------------------- -/

/-- C1: for every non-empty topic list and non-empty question list,
`calculate_importance` assigns each topic (in order) a score equal to the
sum of the cosine similarities between that topic and exactly those
questions whose similarity strictly exceeds the relevance threshold
`0.45`, rounded to 2 decimal digits. -/
theorem c1_importance_scores (topics pyqs : List String) (sim : ℕ → ℕ → ℚ)
    (htop : topics ≠ []) (hq : pyqs ≠ []) :
    calculate_importance topics pyqs sim =
      topics.enum.map (fun p =>
        (p.2, round2 (∑ j ∈ Finset.range pyqs.length,
          if (45/100 : ℚ) < sim p.1 j then sim p.1 j else 0))) := by
  unfold calculate_importance
  rw [if_neg (by simpa [List.isEmpty_iff] using hq)]
  apply List.map_congr_left
  intro p _
  rw [show simRow sim p.1 pyqs.length = (List.range pyqs.length).map (sim p.1)
        from rfl,
      topicScore_range_eq]

/-- C1 witness: the theorem instantiated at one topic and one question
with similarity 0.9. -/
theorem c1_importance_scores_witness :
    (["T"] : List String) ≠ [] ∧ (["q"] : List String) ≠ [] ∧
    calculate_importance ["T"] ["q"] (fun _ _ => 9/10) =
      (["T"] : List String).enum.map (fun p =>
        (p.2, round2 (∑ j ∈ Finset.range (["q"] : List String).length,
          if (45/100 : ℚ) < (fun _ _ => (9/10 : ℚ)) p.1 j
          then (fun _ _ => (9/10 : ℚ)) p.1 j else 0))) :=
  ⟨by simp, by simp,
    c1_importance_scores ["T"] ["q"] (fun _ _ => 9/10) (by simp) (by simp)⟩

/-- C4: if the question list is empty (Python `None` behaves identically
under `if not pyqs`), `calculate_importance` gives every topic the score 0,
and the per-topic record the pipeline consumes (src/app.py safe
extraction) is that zero score together with an empty matched-question
list. -/
theorem c4_no_questions_zero_scores (topics : List String)
    (sim : ℕ → ℕ → ℚ) :
    (calculate_importance topics [] sim).map
        (fun p => (p.1, importanceRecord p.2)) =
      topics.map (fun t => (t, ((0 : ℚ), ([] : List String)))) := by
  simp [calculate_importance, importanceRecord]

/-- C9 counterexample: with an empty topic list, the analysis functions
return ordinary empty data structures (`{}` and `[]`) instead of failing
with a structured MissingInputError: both calls below complete normally
with an empty value. -/
theorem c9_counterexample :
    calculate_importance [] ["q"] (fun _ _ => 1/2) = [] ∧
    analyze_deep_relations [] (fun _ => none) (fun _ _ => 0) = [] :=
  ⟨rfl, rfl⟩

/-- C9 amended: if the topic list is empty, `calculate_importance` returns
an empty score mapping and `analyze_deep_relations` returns an empty
relation list; no error value is produced (the sources have no raise on
this path — src/analyzer.py returns `{t: 0 ...}` over no topics and
src/deep_relations.py line 27 returns `[]`). -/
theorem c9_empty_topics_empty_outputs (pyqs : List String)
    (sim sim2 : ℕ → ℕ → ℚ) (fetch : String → Option String) :
    calculate_importance [] pyqs sim = [] ∧
    analyze_deep_relations [] fetch sim2 = [] := by
  constructor
  · unfold calculate_importance
    split <;> simp
  · rfl

/-- C10: the relation list returned by `analyze_deep_relations` is always
sorted in non-increasing order of edge score, for every input topic list
(and any fetched contents and similarity matrix). -/
theorem c10_relations_sorted (topics : List String)
    (fetch : String → Option String) (sim : ℕ → ℕ → ℚ) :
    List.Pairwise (fun r1 r2 : Relation => r2.score ≤ r1.score)
      (analyze_deep_relations topics fetch sim) := by
  simp only [analyze_deep_relations]
  split
  · exact List.Pairwise.nil
  · have h := @List.sorted_mergeSort Relation relScoreGe
      (fun a b c hab hbc => by
        simp only [relScoreGe, decide_eq_true_eq] at hab hbc ⊢
        exact le_trans hbc hab)
      (fun a b => by
        simp only [relScoreGe, Bool.or_eq_true, decide_eq_true_eq]
        exact le_total b.score a.score)
      (relationsRaw (validTopics topics fetch) sim)
    exact h.imp (fun hb => by
      simpa only [relScoreGe, decide_eq_true_eq] using hb)

/-- C2: with distinct topics (the spec's input contract), the relation
list built by `analyze_deep_relations` is a simple undirected graph: no
relation joins a topic to itself, no unordered pair of topics appears in
two relations, and every relation's score is the similarity-matrix entry
of its index pair. -/
theorem c2_simple_graph (topics : List String)
    (fetch : String → Option String) (sim : ℕ → ℕ → ℚ)
    (hnd : topics.Nodup) :
    (∀ r ∈ analyze_deep_relations topics fetch sim,
      r.topic_a ≠ r.topic_b) ∧
    List.Pairwise (fun r1 r2 => ¬ samePair r1 r2)
      (analyze_deep_relations topics fetch sim) ∧
    (∀ r ∈ analyze_deep_relations topics fetch sim,
      ∃ i j, i < j ∧ j < (validTopics topics fetch).length ∧
        r.topic_a = (validTopics topics fetch).getD i "" ∧
        r.topic_b = (validTopics topics fetch).getD j "" ∧
        r.score = sim i j) := by
  have hvn : (validTopics topics fetch).Nodup := List.Nodup.filter _ hnd
  by_cases hv : (validTopics topics fetch).isEmpty
  · have he : analyze_deep_relations topics fetch sim = [] := by
      simp [analyze_deep_relations, hv]
    rw [he]
    exact ⟨fun r hr => absurd hr (List.not_mem_nil r),
      List.Pairwise.nil,
      fun r hr => absurd hr (List.not_mem_nil r)⟩
  · have he : analyze_deep_relations topics fetch sim =
        (relationsRaw (validTopics topics fetch) sim).mergeSort relScoreGe := by
      simp [analyze_deep_relations, hv]
    rw [he]
    have hperm := List.mergeSort_perm
      (relationsRaw (validTopics topics fetch) sim) relScoreGe
    refine ⟨?_, ?_, ?_⟩
    · intro r hr
      exact relationsRaw_no_self hvn (hperm.mem_iff.mp hr)
    · exact (hperm.pairwise_iff
        (fun h hsp => h (samePair_symm hsp))).mpr (relationsRaw_pairwise hvn)
    · intro r hr
      exact relationsRaw_mem (hperm.mem_iff.mp hr)

/-- C2 witness: two distinct topics with sufficient fetched content and
similarity 0.5, exercising the theorem with a non-empty relation list. -/
theorem c2_simple_graph_witness :
    (["A", "B"] : List String).Nodup ∧
    ((∀ r ∈ analyze_deep_relations ["A", "B"]
        (fun _ => some (String.mk (List.replicate 501 'a')))
        (fun _ _ => 1/2),
      r.topic_a ≠ r.topic_b) ∧
    List.Pairwise (fun r1 r2 => ¬ samePair r1 r2)
      (analyze_deep_relations ["A", "B"]
        (fun _ => some (String.mk (List.replicate 501 'a')))
        (fun _ _ => 1/2)) ∧
    (∀ r ∈ analyze_deep_relations ["A", "B"]
        (fun _ => some (String.mk (List.replicate 501 'a')))
        (fun _ _ => 1/2),
      ∃ i j, i < j ∧
        j < (validTopics ["A", "B"]
          (fun _ => some (String.mk (List.replicate 501 'a')))).length ∧
        r.topic_a = (validTopics ["A", "B"]
          (fun _ => some (String.mk (List.replicate 501 'a')))).getD i "" ∧
        r.topic_b = (validTopics ["A", "B"]
          (fun _ => some (String.mk (List.replicate 501 'a')))).getD j "" ∧
        r.score = (1 : ℚ)/2)) :=
  ⟨by simp, c2_simple_graph ["A", "B"]
    (fun _ => some (String.mk (List.replicate 501 'a')))
    (fun _ _ => 1/2) (by simp)⟩

set_option maxRecDepth 8192 in
/-- C3 counterexample: a topic whose fetched content has exactly 500
characters is excluded from the similarity computation even though its
content is neither missing nor shorter than 500 characters — the source
requires strictly more than 500 (`len(content) > 500`), so the claim's
boundary ("shorter than the 500-character minimum") is wrong at 500. -/
theorem c3_counterexample :
    validTopics ["A"] (fun _ => some (String.mk (List.replicate 500 'a'))) = [] ∧
    some (String.mk (List.replicate 500 'a')) ≠ (none : Option String) ∧
    ¬ (String.mk (List.replicate 500 'a')).length < 500 := by
  refine ⟨by decide, by simp, by decide⟩

/-- C3 amended: a topic participates in the relation-graph similarity
computation exactly when its fetched content is present and strictly
longer than 500 characters (so exclusion happens exactly when the content
is missing or has length at most 500, not "shorter than 500"). -/
theorem c3_participation_iff (topics : List String)
    (fetch : String → Option String) (t : String) (ht : t ∈ topics) :
    t ∈ validTopics topics fetch ↔
      ∃ c, fetch t = some c ∧ 500 < c.length := by
  unfold validTopics
  rw [List.mem_filter]
  simp only [ht, true_and]
  cases h : fetch t with
  | none => simp
  | some c => simp

/-- C3 witness: a topic with 501 characters of content participates. -/
theorem c3_participation_iff_witness :
    ("A" ∈ (["A"] : List String)) ∧
    (("A" ∈ validTopics ["A"]
        (fun _ => some (String.mk (List.replicate 501 'a')))) ↔
      ∃ c, (fun _ : String => some (String.mk (List.replicate 501 'a'))) "A" =
          some c ∧ 500 < c.length) :=
  ⟨by simp, c3_participation_iff ["A"]
    (fun _ => some (String.mk (List.replicate 501 'a'))) "A" (by simp)⟩

/-- C5 counterexample: with one topic and one question of similarity 0.9,
the question matches (similarity exceeds 0.45), yet the importance result
carries no matched-question texts — `calculate_importance` returns only
the rounded score, and the record the pipeline builds from it has an empty
matched list, not the full list `["q"]` the claim requires. -/
theorem c5_counterexample :
    calculate_importance ["T"] ["q"] (fun _ _ => 9/10) = [("T", 9/10)] ∧
    importanceRecord (9/10) = ((9/10 : ℚ), ([] : List String)) ∧
    matchedQuestions (45/100) ["q"] (simRow (fun _ _ => 9/10) 0 1) = ["q"] ∧
    ([] : List String) ≠ ["q"] := by
  refine ⟨?_, rfl, ?_, by simp⟩
  · norm_num [calculate_importance, topicScore, significant, simRow, round2,
      List.enum, List.range, List.range.loop, round_eq]
  · norm_num [matchedQuestions, simRow, List.range, List.range.loop]

/-- C5 amended: every importance result is a non-negative score, and the
per-topic record consumed downstream pairs it with an always-empty
matched-question list (the code never returns the matched question
texts). -/
theorem c5_record_nonneg_empty_matches (topics pyqs : List String)
    (sim : ℕ → ℕ → ℚ) (p : String × ℚ)
    (hp : p ∈ calculate_importance topics pyqs sim) :
    0 ≤ p.2 ∧ importanceRecord p.2 = (p.2, ([] : List String)) := by
  refine ⟨?_, rfl⟩
  unfold calculate_importance at hp
  split at hp
  · obtain ⟨t, -, heq⟩ := List.mem_map.mp hp
    rw [← heq]
  · obtain ⟨q, -, heq⟩ := List.mem_map.mp hp
    rw [← heq]
    exact round2_nonneg _ (topicScore_nonneg _ _ (by norm_num))

/-- C5 witness: the amended theorem at a concrete matching input. -/
theorem c5_record_nonneg_empty_matches_witness :
    (("T", (9 : ℚ)/10) ∈ calculate_importance ["T"] ["q"] (fun _ _ => 9/10)) ∧
    (0 ≤ (("T", (9 : ℚ)/10) : String × ℚ).2 ∧
      importanceRecord (("T", (9 : ℚ)/10) : String × ℚ).2 =
        ((("T", (9 : ℚ)/10) : String × ℚ).2, ([] : List String))) :=
  ⟨by norm_num [calculate_importance, topicScore, significant, simRow, round2,
      List.enum, List.range, List.range.loop, round_eq],
    c5_record_nonneg_empty_matches ["T"] ["q"] (fun _ _ => 9/10)
      ("T", 9/10) (by norm_num [calculate_importance, topicScore, significant,
        simRow, round2, List.enum, List.range, List.range.loop, round_eq])⟩

/-- C6 counterexample: cosine similarities may be negative (range
[-1, 1]); raising the threshold from -0.5 to -0.3 over a row containing a
single similarity -0.4 drops a negative contribution and strictly
increases the topic score computed by the source's thresholded sum. -/
theorem c6_counterexample :
    ((-1/2 : ℚ) ≤ -3/10) ∧
    topicScore (-1/2) [-2/5] < topicScore (-3/10) [-2/5] := by
  constructor
  · norm_num
  · norm_num [topicScore, significant, List.filter]

/-- C6 amended: for every fixed similarity row, raising the relevance
threshold never increases the number of matched questions, and never
increases the topic score provided the lower threshold is non-negative
(which holds at and above the source's threshold 0.45; with negative
thresholds and negative similarities the score can increase). -/
theorem c6_threshold_antitone (t t2 : ℚ) (row : List ℚ) (h : t ≤ t2) :
    matchCount t2 row ≤ matchCount t row ∧
    (0 ≤ t → topicScore t2 row ≤ topicScore t row) := by
  constructor
  · exact List.Sublist.length_le (List.monotone_filter_right row
      (fun a ha => by
        simp only [decide_eq_true_eq] at ha ⊢
        exact lt_of_le_of_lt h ha))
  · intro ht
    induction row with
    | nil => simp [topicScore, significant]
    | cons a rest ih =>
        simp only [topicScore, significant, List.filter_cons,
          decide_eq_true_eq] at ih ⊢
        by_cases h1 : t2 < a
        · have h2 : t < a := lt_of_le_of_lt h h1
          rw [if_pos h1, if_pos h2]
          simp only [List.sum_cons]
          linarith [ih]
        · by_cases h2 : t < a
          · have ha : 0 ≤ a := le_of_lt (lt_of_le_of_lt ht h2)
            rw [if_neg h1, if_pos h2]
            simp only [List.sum_cons]
            linarith [ih]
          · rw [if_neg h1, if_neg h2]
            exact ih

/-- C6 witness: the amended theorem at thresholds 0.45 and 0.6 over a
one-entry row. -/
theorem c6_threshold_antitone_witness :
    ((45/100 : ℚ) ≤ 6/10) ∧
    (matchCount (6/10) [1/2] ≤ matchCount (45/100) [1/2] ∧
      (0 ≤ (45/100 : ℚ) →
        topicScore (6/10) [1/2] ≤ topicScore (45/100) [1/2])) :=
  ⟨by norm_num, c6_threshold_antitone (45/100) (6/10) [1/2] (by norm_num)⟩

/-- C7 counterexample: two topics whose only relation scores 0.2 (below
the 0.40 graph threshold) are edge-free; they never become nodes of the
graph, and the cluster detector's fallback yields no communities at all —
not the two singleton communities the claim requires. -/
theorem c7_counterexample :
    (buildGraph [⟨"A", "B", 1/5⟩]).nodes = [] ∧
    clusterCommunities (buildGraph [⟨"A", "B", 1/5⟩]) = [] ∧
    "A" ∉ (buildGraph [⟨"A", "B", 1/5⟩]).nodes ∧
    ([] : List (List String)) ≠ [["A"], ["B"]] := by
  refine ⟨?_, ?_, ?_, by simp⟩
  · norm_num [buildGraph, strongEdges]
  · norm_num [clusterCommunities, buildGraph, strongEdges]
  · norm_num [buildGraph, strongEdges]

/-- C7 amended: the communities returned by the (spec-modelled) greedy
modularity cluster detector form a partition of the graph's node set —
each node lies in exactly one community (the flattened communities are a
permutation of the duplicate-free node list) — and every node of the
graph is an endpoint of some qualifying edge, so edge-free topics are not
nodes and belong to no community. -/
theorem c7_communities_partition (relations : List Relation) :
    ((clusterCommunities (buildGraph relations)).flatten).Perm
      (buildGraph relations).nodes ∧
    (buildGraph relations).nodes.Nodup ∧
    ∀ t ∈ (buildGraph relations).nodes,
      ∃ r ∈ strongEdges relations, t = r.topic_a ∨ t = r.topic_b := by
  refine ⟨?_, ?_, ?_⟩
  · unfold clusterCommunities
    split
    · rename_i hemp
      rw [List.isEmpty_iff.mp hemp]
      exact List.Perm.refl _
    · exact (greedyMerge_flatten_perm _ _ _).trans
        (by rw [flatten_map_singleton])
  · exact List.nodup_dedup _
  · intro t ht
    have ht2 := List.mem_dedup.mp ht
    obtain ⟨r, hr, hmem⟩ := List.mem_flatMap.mp ht2
    refine ⟨r, hr, ?_⟩
    rcases List.mem_cons.mp hmem with h | h
    · exact Or.inl h
    · exact Or.inr (by simpa using h)

/-- C7 witness: the partition theorem at a single strong relation, with
node A lying in a community. -/
theorem c7_communities_partition_witness :
    ("A" ∈ (buildGraph [⟨"A", "B", 1/2⟩]).nodes) ∧
    (∃ r ∈ strongEdges [⟨"A", "B", 1/2⟩],
      "A" = r.topic_a ∨ "A" = r.topic_b) :=
  ⟨by norm_num [buildGraph, strongEdges, List.mem_dedup],
    (c7_communities_partition [⟨"A", "B", 1/2⟩]).2.2 "A"
      (by norm_num [buildGraph, strongEdges, List.mem_dedup])⟩

/-- C8 counterexample: a readability score of 55 lies in the claim's
middle band [30, 60), yet the source gives it the default reading speed
130 (the same speed as very easy text), because the code's band boundary
is 50, not 60. -/
theorem c8_counterexample :
    (30 : ℚ) ≤ 55 ∧ (55 : ℚ) < 60 ∧ wpmFor 55 = 130 ∧ wpmFor 100 = 130 := by
  refine ⟨by norm_num, by norm_num, ?_, ?_⟩ <;> norm_num [wpmFor]

/-- C8 amended: for content of at least 100 characters, `estimate_effort`
maps the readability score to a base reading speed with band boundaries 50
and 30 (not 60 and 30): readability ≥ 50 gives the default 130 wpm,
[30, 50) gives 100 wpm, and below 30 gives 70 wpm. -/
theorem c8_speed_bands :
    (∀ c : ℚ, (50 ≤ c → wpmFor c = 130) ∧
      (30 ≤ c → c < 50 → wpmFor c = 100) ∧ (c < 30 → wpmFor c = 70)) ∧
    ∀ (fl : String → ℚ) (lex : String → ℕ) (s : String),
      ¬ s.length < 100 →
      estimate_effort fl lex (some s) =
        (minutesOf (lex s) (wpmFor (fl s)) (isMathHeavyStr s),
         difficultyLabel (fl s) (isMathHeavyStr s), isMathHeavyStr s) := by
  constructor
  · intro c
    refine ⟨fun h1 => ?_, fun h1 h2 => ?_, fun h1 => ?_⟩ <;>
      simp only [wpmFor]
    · rw [if_neg (by linarith), if_neg (by linarith)]
    · rw [if_pos h2, if_neg (by linarith)]
    · rw [if_pos h1]
  · intro fl lex s hs
    simp [estimate_effort, hs]

/-- C8 witness: the three bands at readability 55, 40 and 20, and the
effort record of a 100-character text with readability 45 and 1300
words. -/
theorem c8_speed_bands_witness :
    wpmFor 55 = 130 ∧ wpmFor 40 = 100 ∧ wpmFor 20 = 70 ∧
    estimate_effort (fun _ => 45) (fun _ => 1300)
        (some (String.mk (List.replicate 100 'a'))) =
      (minutesOf 1300 (wpmFor 45)
          (isMathHeavyStr (String.mk (List.replicate 100 'a'))),
       difficultyLabel 45
          (isMathHeavyStr (String.mk (List.replicate 100 'a'))),
       isMathHeavyStr (String.mk (List.replicate 100 'a'))) :=
  ⟨(c8_speed_bands.1 55).1 (by norm_num),
   (c8_speed_bands.1 40).2.1 (by norm_num) (by norm_num),
   (c8_speed_bands.1 20).2.2 (by norm_num),
   c8_speed_bands.2 (fun _ => 45) (fun _ => 1300)
     (String.mk (List.replicate 100 'a'))
     (by rw [String.length_mk, List.length_replicate]; exact lt_irrefl 100)⟩
